import Mathlib

/-!
Verification of the GlyphOS streaming/rendering core (`src/OS/script-unified.js`).

Strings are modelled as `List Char` (JS strings at the code points level).
External collaborators (JSON.parse, marked, KaTeX, mermaid/DOM toolbar pass)
are modelled as function parameters, exactly at the call interface the code
uses them through.
-/

namespace GlyphOS

/-- JS `\s` on the ASCII whitespace characters (space, tab, newline,
carriage return, vertical tab, form feed). -/
def isWsC (c : Char) : Bool :=
  c == ' ' || c == '\t' || c == '\n' || c == '\r' || c == '\x0b' || c == '\x0c'

/-- JS `String.prototype.trim`: strip leading and trailing whitespace. -/
def trimS (s : List Char) : List Char :=
  ((s.dropWhile isWsC).reverse.dropWhile isWsC).reverse

/-- `buffer.split('\n')` followed by `lines.pop()`: the pair of the complete
lines (all segments but the last) and the trailing partial segment, as in
`streamOllama` (script-unified.js:761-762) and `streamOpenAIStyle` (849-850). -/
def splitNl : List Char → List (List Char) × List Char
  | [] => ([], [])
  | c :: rest =>
    if c = '\n' then ([] :: (splitNl rest).1, (splitNl rest).2)
    else
      match splitNl rest with
      | ([], buf) => ([], c :: buf)
      | (l :: ls, buf) => ((c :: l) :: ls, buf)

/-- Processing of one complete line in `streamOllama` (lines 764-772):
whitespace-only lines are skipped; `parse` models `JSON.parse` followed by
reading the `response` field (`none` = parse error or absent field, both
silently skipped); a truthy (non-empty) `response` is a delta. -/
def procLine (parse : List Char → Option (List Char)) (line : List Char) :
    Option (List Char) :=
  if trimS line = [] then none
  else
    match parse line with
    | some r => if r = [] then none else some r
    | none => none

/-- One iteration of the `while` read loop of `streamOllama` (lines 756-773):
append the decoded chunk to the carried buffer, split on newlines, keep the
trailing partial line, emit the deltas of the complete lines in order.
State is (carried buffer, deltas emitted so far). -/
def stepChunk (parse : List Char → Option (List Char))
    (st : List Char × List (List Char)) (chunk : List Char) :
    List Char × List (List Char) :=
  let p := splitNl (st.1 ++ chunk)
  (p.2, st.2 ++ p.1.filterMap (procLine parse))

/-- The end-of-stream step of `streamOllama` (lines 775-780): a non-empty
trailing buffered fragment is parsed once more. -/
def finishOllama (parse : List Char → Option (List Char))
    (st : List Char × List (List Char)) : List (List Char) :=
  st.2 ++ (procLine parse st.1).toList

/-- The ordered delta sequence `streamOllama` emits (via `onUpdate`) for a
given sequence of decoded chunks of the response body. -/
def streamOllamaDeltas (parse : List Char → Option (List Char))
    (chunks : List (List Char)) : List (List Char) :=
  finishOllama parse (chunks.foldl (stepChunk parse) ([], []))

/-- `line.replace('data: ', '')` with a string pattern: JS `String.replace`
removes only the first occurrence of the pattern (the line is unchanged when
the pattern does not occur). -/
def stripFirst (pat : List Char) : List Char → List Char
  | [] => []
  | c :: rest =>
    if pat.isPrefixOf (c :: rest) then (c :: rest).drop pat.length
    else c :: stripFirst pat rest

/-- The SSE line filter of `streamOpenAIStyle` (lines 853-854 and 833-834):
a line whose trimmed form starts with `data: ` yields
`line.replace('data: ', '').trim()`; other lines are ignored. -/
def sseExtract (line : List Char) : Option (List Char) :=
  if "data: ".data.isPrefixOf (trimS line) then
    some (trimS (stripFirst "data: ".data line))
  else none

/-- The per-chunk line loop of `streamOpenAIStyle` (lines 852-862): `break`
on a `[DONE]` payload exits this loop (dropping the remaining lines of the
current chunk only); `parse` models `JSON.parse` plus
`json.choices?.[0]?.delta?.content || ''` (`none` = malformed payload,
skipped); an empty content string (falsy) is not emitted. -/
def sseLines (parse : List Char → Option (List Char)) :
    List (List Char) → List (List Char)
  | [] => []
  | l :: ls =>
    match sseExtract l with
    | none => sseLines parse ls
    | some d =>
      if d = "[DONE]".data then []
      else
        match parse d with
        | some c => if c = [] then sseLines parse ls else c :: sseLines parse ls
        | none => sseLines parse ls

/-- One iteration of the read loop of `streamOpenAIStyle` (lines 848-862). -/
def sseStep (parse : List Char → Option (List Char))
    (st : List Char × List (List Char)) (chunk : List Char) :
    List Char × List (List Char) :=
  let p := splitNl (st.1 ++ chunk)
  (p.2, st.2 ++ sseLines parse p.1)

/-- One line of the `done` branch of `streamOpenAIStyle` (lines 831-843):
like the chunk loop but a `[DONE]` payload is merely skipped (no `break`). -/
def sseFinishLine (parse : List Char → Option (List Char)) (l : List Char) :
    Option (List Char) :=
  match sseExtract l with
  | none => none
  | some d =>
    if d = "[DONE]".data then none
    else
      match parse d with
      | some c => if c = [] then none else some c
      | none => none

/-- The `done` branch of `streamOpenAIStyle` (lines 829-845): when the
trailing buffer is non-blank, every segment of `buffer.split('\n')`
(including the last) is processed once more. -/
def sseFinish (parse : List Char → Option (List Char)) (buf : List Char) :
    List (List Char) :=
  if trimS buf = [] then []
  else ((splitNl buf).1 ++ [(splitNl buf).2]).filterMap (sseFinishLine parse)

/-- The ordered delta sequence `streamOpenAIStyle` emits for a given
sequence of decoded chunks of the response body. -/
def streamOpenAIDeltas (parse : List Char → Option (List Char))
    (chunks : List (List Char)) : List (List Char) :=
  let st := chunks.foldl (sseStep parse) ([], [])
  st.2 ++ sseFinish parse st.1

/-- A chunk whose single line is the `[DONE]` sentinel. -/
def doneChunkCE : List Char := "data: [DONE]\n".data

/-- A chat-completion delta payload carrying content "Hi". -/
def hiPayloadCE : List Char :=
  "\x7b\"choices\":[\x7b\"delta\":\x7b\"content\":\"Hi\"\x7d\x7d]\x7d".data

/-- A chunk whose single line is a `data: ` record with payload
`hiPayloadCE`. -/
def hiChunkCE : List Char := "data: ".data ++ hiPayloadCE ++ ['\n']

/-- Models `JSON.parse` + `json.choices?.[0]?.delta?.content` exactly on the
payload used by the C2 counterexample: that payload parses to content "Hi";
every other string is treated as malformed. -/
def parseCE (d : List Char) : Option (List Char) :=
  if d = hiPayloadCE then some "Hi".data else none

/-- Decimal digit character, as produced by JS string interpolation. -/
def digitChar (n : Nat) : Char :=
  if n = 0 then '0' else if n = 1 then '1' else if n = 2 then '2'
  else if n = 3 then '3' else if n = 4 then '4' else if n = 5 then '5'
  else if n = 6 then '6' else if n = 7 then '7' else if n = 8 then '8'
  else '9'

/-- Fuelled decimal printer (the fuel only bounds the recursion depth; it is
always sufficient at `natDigits`'s call site since `n / 10 < n`). -/
def natDigitsGo : Nat → Nat → List Char
  | 0, n => [digitChar n]
  | fuel + 1, n =>
    if n < 10 then [digitChar n]
    else natDigitsGo fuel (n / 10) ++ [digitChar (n % 10)]

/-- Decimal representation of a natural number, as produced by JS template
interpolation `${n}` (e.g. in `API Error (${response.status})` and in the
`%%%MATH${i}%%%` placeholders). -/
def natDigits (n : Nat) : List Char := natDigitsGo n n

/-- The distinct failure conditions of the stream adapters, one per `throw`
site: `emptyResponse` for the empty-accumulated-text check, `transportHttp`
for the non-2xx branch, `transportNet` for a rejected fetch, `missingKey`
for the absent-API-key check of `streamOpenAIStyle`. -/
inductive AdapterFailKind
  | emptyResponse
  | transportHttp
  | transportNet
  | missingKey
  deriving DecidableEq

/-- Outcome of the transport layer underneath `streamOllama`: either the
decoded body chunks of a 2xx response, or a non-2xx response whose JSON body
optionally carries an `error` field (line 747), or a network error. -/
inductive OllamaTransport
  | ok (chunks : List (List Char))
  | httpErr (errField : Option (List Char))
  | netErr (msg : List Char)

/-- Outcome of the transport layer underneath `streamOpenAIStyle`: either
the decoded body chunks of a 2xx response, or a non-2xx status with its body
text (line 818), or a network error. -/
inductive SSETransport
  | ok (chunks : List (List Char))
  | httpErr (status : Nat) (body : List Char)
  | netErr (msg : List Char)

/-- `streamOllama` end to end (lines 732-786): transport errors throw before
any chunk is read; a completed stream with empty accumulated text throws
`Empty response from Ollama.`; every error is rewrapped by the outer catch
as `Ollama Stream Error: <message>`. The error value records the originating
throw site as an `AdapterFailKind`. -/
def streamOllamaRun (parse : List Char → Option (List Char))
    (t : OllamaTransport) : Except (AdapterFailKind × List Char) (List Char) :=
  match t with
  | .httpErr e =>
    .error (.transportHttp,
      "Ollama Stream Error: ".data ++ e.getD "Ollama connection failed".data)
  | .netErr m => .error (.transportNet, "Ollama Stream Error: ".data ++ m)
  | .ok chunks =>
    let full := (streamOllamaDeltas parse chunks).flatten
    if full = [] then
      .error (.emptyResponse,
        "Ollama Stream Error: Empty response from Ollama.".data)
    else .ok full

/-- `streamOpenAIStyle` end to end (lines 788-870): missing key and
transport errors throw before any chunk is read; a completed stream with
empty accumulated text throws `Empty response from provider.`; every error
is rewrapped by the outer catch as `Stream Error: <message>`, the non-2xx
one carrying the upstream status and body. -/
def streamOpenAIRun (parse : List Char → Option (List Char))
    (keyPresent : Bool) (t : SSETransport) :
    Except (AdapterFailKind × List Char) (List Char) :=
  if !keyPresent then
    .error (.missingKey, "Stream Error: API Key missing.".data)
  else
    match t with
    | .httpErr status body =>
      .error (.transportHttp,
        "Stream Error: API Error (".data ++ natDigits status ++ "): ".data ++ body)
    | .netErr m => .error (.transportNet, "Stream Error: ".data ++ m)
    | .ok chunks =>
      let full := (streamOpenAIDeltas parse chunks).flatten
      if full = [] then
        .error (.emptyResponse, "Stream Error: Empty response from provider.".data)
      else .ok full

/-- Match of `/([^\n])\s+(\d+\.)\s/` at the current position (`c` the head
character, `rest` the remainder): a non-newline character, one or more
whitespace characters (greedy), one or more digits (greedy), a dot, one
whitespace character. On a match, returns the replacement text
`'$1\n\n$2 '` and the number of characters of `rest` the match consumed. -/
def matchNumAt (c : Char) (rest : List Char) : Option (List Char × Nat) :=
  if c = '\n' then none
  else
    let ws := rest.takeWhile isWsC
    if ws = [] then none
    else
      let r1 := rest.dropWhile isWsC
      let ds := r1.takeWhile Char.isDigit
      if ds = [] then none
      else
        match r1.dropWhile Char.isDigit with
        | '.' :: w :: _ =>
          if isWsC w then
            some (c :: '\n' :: '\n' :: (ds ++ '.' :: ' ' :: []),
              ws.length + ds.length + 2)
          else none
        | _ => none

/-- Fuelled scan for the first sanitizer regex: like JS global replace, a
failed position advances by one character, a successful match continues
after the matched text. The fuel only bounds recursion depth and is always
sufficient at `fixNumbered`'s call site. -/
def fixNumberedGo : Nat → List Char → List Char
  | _, [] => []
  | 0, s => s
  | fuel + 1, c :: rest =>
    match matchNumAt c rest with
    | some (rep, k) => rep ++ fixNumberedGo fuel (rest.drop k)
    | none => c :: fixNumberedGo fuel rest

/-- `text.replace(/([^\n])\s+(\d+\.)\s/g, '$1\n\n$2 ')`
(script-unified.js:569). -/
def fixNumbered (s : List Char) : List Char := fixNumberedGo s.length s

/-- Match of `/([^\n])\s+([\-\*])\s/` at the current position. -/
def matchBulAt (c : Char) (rest : List Char) : Option (List Char × Nat) :=
  if c = '\n' then none
  else
    let ws := rest.takeWhile isWsC
    if ws = [] then none
    else
      match rest.dropWhile isWsC with
      | b :: w :: _ =>
        if (b = '-' ∨ b = '*') ∧ isWsC w then
          some (c :: '\n' :: '\n' :: b :: ' ' :: [], ws.length + 2)
        else none
      | _ => none

/-- Fuelled scan for the second sanitizer regex. -/
def fixBulletsGo : Nat → List Char → List Char
  | _, [] => []
  | 0, s => s
  | fuel + 1, c :: rest =>
    match matchBulAt c rest with
    | some (rep, k) => rep ++ fixBulletsGo fuel (rest.drop k)
    | none => c :: fixBulletsGo fuel rest

/-- `clean.replace(/([^\n])\s+([\-\*])\s/g, '$1\n\n$2 ')`
(script-unified.js:571). -/
def fixBullets (s : List Char) : List Char := fixBulletsGo s.length s

/-- Whether the first sanitizer regex matches anywhere in the text. -/
def hasNumMatch : List Char → Bool
  | [] => false
  | c :: rest => (matchNumAt c rest).isSome || hasNumMatch rest

/-- Whether the second sanitizer regex matches anywhere in the text. -/
def hasBulMatch : List Char → Bool
  | [] => false
  | c :: rest => (matchBulAt c rest).isSome || hasBulMatch rest

/-- `sanitizeMarkdown` (script-unified.js:565-575): empty (falsy) text maps
to the empty string; otherwise the numbered-list fix is applied first and
the bullet fix to its result. -/
def sanitizeMarkdown (s : List Char) : List Char :=
  if s = [] then [] else fixBullets (fixNumbered s)

/-- The positional placeholder token `%%%MATH${i}%%%` (lines 590 and 594). -/
def phStr (n : Nat) : List Char :=
  "%%%MATH".data ++ natDigits n ++ "%%%".data

/-- Index of the first occurrence of `$$`. -/
def findClose : List Char → Option Nat
  | [] => none
  | [_] => none
  | a :: b :: rest =>
    if a = '$' ∧ b = '$' then some 0
    else (findClose (b :: rest)).map (· + 1)

/-- Fuelled scan for `/\$\$([\s\S]*?)\$\$/g` (line 588): at a `$$` opener,
the non-greedy body ends at the next `$$`; with no closing `$$` anywhere
after the opener no later match is possible, so the remainder is emitted
unchanged; any other position is copied and the scan advances by one. -/
def extractDisplayGo : Nat → List Char → Nat → List Char × List (List Char)
  | _, [], _ => ([], [])
  | _, [c], _ => ([c], [])
  | 0, s, _ => (s, [])
  | fuel + 1, c :: d :: rest, n =>
    if c = '$' ∧ d = '$' then
      match findClose rest with
      | some i =>
        let r := extractDisplayGo fuel (rest.drop (i + 2)) (n + 1)
        (phStr n ++ r.1, rest.take i :: r.2)
      | none => (c :: d :: rest, [])
    else
      let r := extractDisplayGo fuel (d :: rest) n
      (c :: r.1, r.2)

/-- The display-math extraction pass, numbering its blocks from `n`. -/
def extractDisplay (s : List Char) (n : Nat) : List Char × List (List Char) :=
  extractDisplayGo s.length s n

/-- Index of the closing `$` of an inline-math body starting here: the scan
fails on a newline or at end of input before a `$` is found. -/
def scanClose : List Char → Option Nat
  | [] => none
  | c :: rest =>
    if c = '$' then some 0
    else if c = '\n' then none
    else (scanClose rest).map (· + 1)

/-- Fuelled scan for `/\$([^\$\n]+?)\$/g` (line 592): at a `$`, the body is
the run of non-`$`, non-newline characters up to the next `$` and must be
non-empty; on failure the scan advances by one character. -/
def extractInlineGo : Nat → List Char → Nat → List Char × List (List Char)
  | _, [], _ => ([], [])
  | 0, s, _ => (s, [])
  | fuel + 1, c :: rest, n =>
    if c = '$' then
      match scanClose rest with
      | some i =>
        if i = 0 then
          let r := extractInlineGo fuel rest n
          (c :: r.1, r.2)
        else
          let r := extractInlineGo fuel (rest.drop (i + 1)) (n + 1)
          (phStr n ++ r.1, rest.take i :: r.2)
      | none =>
        let r := extractInlineGo fuel rest n
        (c :: r.1, r.2)
    else
      let r := extractInlineGo fuel rest n
      (c :: r.1, r.2)

/-- The inline-math extraction pass, numbering its blocks from `n`. -/
def extractInline (s : List Char) (n : Nat) : List Char × List (List Char) :=
  extractInlineGo s.length s n

/-- The whole extraction pass of `renderRichContent` (lines 584-595):
display math first, then inline math on the substituted text, both pushing
into the one `mathBlocks` array (`true` = display mode). -/
def extractMathBlocks (s : List Char) : List Char × List (List Char × Bool) :=
  let d := extractDisplay s 0
  let i := extractInline d.1 d.2.length
  (i.1, d.2.map (fun t => (t, true)) ++ i.2.map (fun t => (t, false)))

/-- `parseInt` on a run of decimal digits. -/
def natOfDigits (ds : List Char) : Nat :=
  ds.foldl (fun a c => 10 * a + (c.toNat - 48)) 0

/-- Match of `/%%%MATH(\d+)%%%/` at the current position: returns the
parsed index, the matched text itself (kept verbatim when the index is out
of range, line 604) and the number of characters of `rest` consumed. -/
def matchPhAt (c : Char) (rest : List Char) : Option (Nat × List Char × Nat) :=
  if c = '%' ∧ "%%MATH".data.isPrefixOf rest then
    let ds := (rest.drop 6).takeWhile Char.isDigit
    if ds = [] then none
    else if "%%%".data.isPrefixOf ((rest.drop 6).dropWhile Char.isDigit) then
      some (natOfDigits ds, '%' :: ("%%MATH".data ++ ds ++ "%%%".data),
        6 + ds.length + 3)
    else none
  else none

/-- Fuelled scan for the placeholder-restoration replace (lines 602-615):
each placeholder is replaced by the rendered form of its block (`katex`
models `katex.renderToString` including its error-span fallback); an
out-of-range index keeps the matched text. -/
def restoreGo (katex : List Char → Bool → List Char)
    (blocks : List (List Char × Bool)) : Nat → List Char → List Char
  | _, [] => []
  | 0, s => s
  | fuel + 1, c :: rest =>
    match matchPhAt c rest with
    | some (n, mtxt, k) =>
      (match blocks[n]? with
       | some b => katex b.1 b.2
       | none => mtxt) ++ restoreGo katex blocks fuel (rest.drop k)
    | none => c :: restoreGo katex blocks fuel rest

/-- `element.innerHTML.replace(/%%%MATH(\d+)%%%/g, ...)` (line 602). -/
def restoreMath (katex : List Char → Bool → List Char)
    (blocks : List (List Char × Bool)) (s : List Char) : List Char :=
  restoreGo katex blocks s.length s

/-- Whether a placeholder token occurs anywhere in the text. -/
def containsPh : List Char → Bool
  | [] => false
  | c :: rest => (matchPhAt c rest).isSome || containsPh rest

/-- Substring test (used to state that an error message does not survive
into a rendered output). -/
def containsSub (pat : List Char) : List Char → Bool
  | [] => pat.isEmpty
  | c :: rest => pat.isPrefixOf (c :: rest) || containsSub pat rest

/-- Lines 584-675 of `renderRichContent` applied to already-sanitized text:
math extraction (display then inline), the external markup formatter
(`marked.parse`), string-level placeholder restoration (run only when the
math auto-render global is present, line 601), and, in final mode only, the
DOM pass adding mermaid containers and code toolbars, modelled by the
`finalize` parameter (it consumes the freshly assigned visual content and
yields the augmented one). -/
def renderFromSanitized (marked : List Char → List Char)
    (katex : Option (List Char → Bool → List Char))
    (finalize : List Char → List Char) (s : List Char) (isFinal : Bool) :
    List Char :=
  let e := extractMathBlocks s
  let html := marked e.1
  let restored :=
    match katex with
    | some k => restoreMath k e.2 html
    | none => html
  if isFinal then finalize restored else restored

/-- `renderRichContent` (lines 577-675). `_prev` is the visual content the
target element holds before the call; the code overwrites it wholesale
(`element.textContent = markdownText` at line 579, or
`element.innerHTML = marked.parse(...)` at line 598) before any final-mode
augmentation, so the result never depends on it. `marked = none` models an
absent `window.marked` global (plain-text early return, line 578). -/
def renderRichContent (marked : Option (List Char → List Char))
    (katex : Option (List Char → Bool → List Char))
    (finalize : List Char → List Char) (_prev : List Char) (text : List Char)
    (isFinal : Bool) : List Char :=
  match marked with
  | none => text
  | some m => renderFromSanitized m katex finalize (sanitizeMarkdown text) isFinal

/-- The UI-state fields of the client object that `processCommandInput` and
`generateResponse` read or write: the command input value, the generation
flag, the command history, the onboarding flag, the emitted toasts
(message, level), the canvas blocks (role, initial content), the in-flight
response block's visual content, the successive visual contents that block
has held (each assignment appends one entry), and the threads saved to
history. -/
structure AppState where
  cmdInputValue : List Char
  isGenerating : Bool
  commandHistory : List (List Char)
  hasStarted : Bool
  toasts : List (List Char × List Char)
  blocks : List (List Char × List Char)
  sessionContent : List Char
  contentTrace : List (List Char)
  savedThreads : List (List Char × List Char)
  deriving DecidableEq

/-- Result of the selected adapter call inside `generateResponse`'s `try`:
the stream either succeeded after the listed cumulative `onUpdate` texts,
or threw with message `msg` after the listed cumulative `onUpdate` texts. -/
inductive AdapterOutcome
  | ok (updates : List (List Char))
  | err (updates : List (List Char)) (msg : List Char)

/-- The text the catch block appends to the response block (line 547). -/
def errBanner (msg : List Char) : List Char :=
  "\n\n**⚠️ Error:** ".data ++ msg

/-- `generateResponse` (script-unified.js:501-561). `render` is
`(text, isFinal) ↦` the visual content `renderRichContent` assigns to the
response block. On success: each `onUpdate` re-renders the block, the
thread is saved, and the `finally` block clears `isGenerating` and runs the
final render pass. On an adapter error: the catch block appends the error
banner to the block's current content and raises a toast, then the same
`finally` block runs — its final render assigns
`render fullResponseText true`, which replaces the banner-bearing content.
-/
def generateResponseRun (render : List Char → Bool → List Char)
    (prompt : List Char) (outcome : AdapterOutcome) (st : AppState) :
    AppState :=
  if st.isGenerating then st
  else
    let st1 := { st with
      isGenerating := true,
      blocks := st.blocks ++ [("assistant".data, [])],
      sessionContent := ([] : List Char),
      contentTrace := st.contentTrace ++ [[]] }
    match outcome with
    | .ok ups =>
      let full := (ups.getLast?).getD []
      { st1 with
        isGenerating := false,
        sessionContent := render full true,
        contentTrace := st1.contentTrace ++ ups.map (fun u => render u false)
          ++ [render full true],
        savedThreads := st1.savedThreads ++ [(prompt, full)] }
    | .err ups msg =>
      let full := (ups.getLast?).getD []
      let atCatch := ((ups.getLast?).map (fun u => render u false)).getD []
        ++ errBanner msg
      { st1 with
        isGenerating := false,
        sessionContent := render full true,
        contentTrace := st1.contentTrace ++ ups.map (fun u => render u false)
          ++ [atCatch, render full true],
        toasts := st1.toasts ++ [("Generation Error: ".data ++ msg, "error".data)] }

/-- `processCommandInput` (script-unified.js:348-414): the empty-input and
busy guards return early (before the history update and before the input is
cleared); everything after the guards — history bookkeeping, input
clearing, command dispatch, provider override, generation — is `proceed`,
applied to the state and the trimmed text. -/
def processCommandInput (proceed : AppState → List Char → AppState)
    (st : AppState) : AppState :=
  let text := trimS st.cmdInputValue
  if text = [] then
    { st with toasts := st.toasts
        ++ [("Command input cannot be empty.".data, "warning".data)] }
  else if st.isGenerating then
    { st with toasts := st.toasts
        ++ [("Please wait for the current response to finish.".data, "info".data)] }
  else proceed st text

/-- A state with a streaming session in flight and a pending submission. -/
def busyStateCE : AppState :=
  { cmdInputValue := "hi".data, isGenerating := true, commandHistory := [],
    hasStarted := true, toasts := [], blocks := [("user".data, "x".data)],
    sessionContent := "partial".data, contentTrace := [], savedThreads := [] }

/-- The idle state used by the C3 exhibit. -/
def idleStateCE : AppState :=
  { cmdInputValue := [], isGenerating := false, commandHistory := [],
    hasStarted := true, toasts := [], blocks := [], sessionContent := [],
    contentTrace := [], savedThreads := [] }

/-- A concrete renderer instance: `marked` and the final-mode DOM pass as
identities and KaTeX as the raw TeX source, so the pipeline itself is
exercised. -/
def renderCE (t : List Char) (f : Bool) : List Char :=
  renderRichContent (some (fun s => s)) (some (fun tex _ => tex))
    (fun s => s) [] t f

/-- The buffer of the C7 round-trip scenario. -/
def mathBufCE : List Char := "see $$x^2$$ and $y$ done".data

end GlyphOS

namespace GlyphOS

lemma splitNl_no_newline {s : List Char} (h : '\n' ∉ s) : splitNl s = ([], s) := by
  induction s with
  | nil => rfl
  | cons c rest ih =>
    have hc : c ≠ '\n' := fun he => h (he ▸ List.mem_cons_self c rest)
    have hr : '\n' ∉ rest := fun hm => h (List.mem_cons_of_mem c hm)
    simp only [splitNl, ih hr, if_neg hc]

lemma splitNl_buf_no_newline (s : List Char) : '\n' ∉ (splitNl s).2 := by
  induction s with
  | nil => simp [splitNl]
  | cons c rest ih =>
    rcases h : splitNl rest with ⟨ls, buf⟩
    rw [h] at ih
    by_cases hc : c = '\n'
    · simpa [splitNl, h, hc] using ih
    · cases ls with
      | nil =>
        simp only [splitNl, h, if_neg hc, List.mem_cons]
        push_neg
        exact ⟨fun he => hc he.symm, ih⟩
      | cons l ls' => simpa [splitNl, h, hc] using ih

lemma splitNl_append (a b : List Char) :
    splitNl (a ++ b) =
      ((splitNl a).1 ++ (splitNl ((splitNl a).2 ++ b)).1,
        (splitNl ((splitNl a).2 ++ b)).2) := by
  induction a with
  | nil => simp [splitNl]
  | cons c a' ih =>
    rcases h : splitNl a' with ⟨ls, buf⟩
    rw [h] at ih
    simp only at ih
    rcases hy : splitNl (buf ++ b) with ⟨lsy, bufy⟩
    rw [hy] at ih
    by_cases hc : c = '\n'
    · subst hc
      simp [List.cons_append, splitNl, ih, h, hy]
    · cases ls with
      | nil =>
        simp only [List.nil_append] at ih
        simp only [List.cons_append, splitNl, if_neg hc, h, List.nil_append, hy,
          List.append_eq]
        rw [ih]
      | cons l ls' =>
        simp only [List.cons_append] at ih
        simp only [List.cons_append, splitNl, if_neg hc, h, hy, List.append_eq]
        rw [ih]

lemma ollama_fold (parse : List Char → Option (List Char))
    (chunks : List (List Char)) :
    ∀ buf out, '\n' ∉ buf →
      finishOllama parse (chunks.foldl (stepChunk parse) (buf, out)) =
        out ++ (splitNl (buf ++ chunks.flatten)).1.filterMap (procLine parse)
            ++ (procLine parse (splitNl (buf ++ chunks.flatten)).2).toList := by
  induction chunks with
  | nil =>
    intro buf out h
    simp [finishOllama, splitNl_no_newline h]
  | cons c cs ih =>
    intro buf out h
    have hstep : stepChunk parse (buf, out) c =
        ((splitNl (buf ++ c)).2,
          out ++ (splitNl (buf ++ c)).1.filterMap (procLine parse)) := rfl
    have hb2 : '\n' ∉ (splitNl (buf ++ c)).2 := splitNl_buf_no_newline _
    have happ := splitNl_append (buf ++ c) cs.flatten
    simp only [List.foldl_cons, hstep]
    rw [ih _ _ hb2]
    have hflat : (c :: cs).flatten = c ++ cs.flatten := rfl
    rw [hflat, ← List.append_assoc buf c cs.flatten, happ]
    simp [List.filterMap_append, List.append_assoc]

/-- C1. For every way of splitting the response body across chunk boundaries,
`streamOllama` emits exactly the same ordered sequence of deltas as when the
whole input arrives as one single chunk; and on stream end the trailing
buffered fragment (when non-blank) is parsed once more before completion
(the end-of-stream step appends exactly the delta, if any, obtained by
parsing the carried buffer). -/
theorem streamOllama_chunking (parse : List Char → Option (List Char))
    (chunks : List (List Char)) :
    streamOllamaDeltas parse chunks = streamOllamaDeltas parse [chunks.flatten]
    ∧ ∀ buf out, finishOllama parse (buf, out) = out ++ (procLine parse buf).toList := by
  constructor
  · have h1 := ollama_fold parse chunks [] [] (by simp)
    have h2 := ollama_fold parse [chunks.flatten] [] [] (by simp)
    simp only [streamOllamaDeltas]
    rw [h1, h2]
    simp
  · intro buf out
    rfl

/-- C2 counterexample: the claim "no delta is emitted from any record after
the [DONE] line (in the same chunk or in any later chunk)" is false. Here
the first chunk consists exactly of a `data: [DONE]` line, yet a record in
the following chunk still emits the delta "Hi": the `break` at line 855 only
exits the per-chunk `for` loop, not the outer read loop. -/
theorem sse_done_not_global_ce :
    sseExtract "data: [DONE]".data = some "[DONE]".data
    ∧ streamOpenAIDeltas parseCE [doneChunkCE, hiChunkCE] = ["Hi".data] := by
  constructor
  · rfl
  · rfl

/-- C2 (amended): a `data: [DONE]` line emits nothing and stops delta
emission for the remaining lines decoded from the same read chunk, and a
chunk consisting of just the `[DONE]` line leaves the adapter state exactly
as it was, so records arriving in later chunks are processed again. -/
theorem sse_done_stops_chunk (parse : List Char → Option (List Char))
    (ls1 ls2 : List (List Char)) (l : List Char)
    (h : sseExtract l = some "[DONE]".data) :
    sseLines parse (ls1 ++ l :: ls2) = sseLines parse ls1
    ∧ ∀ (p : List Char → Option (List Char)) (c : List Char),
        streamOpenAIDeltas p [doneChunkCE, c] = streamOpenAIDeltas p [c] := by
  constructor
  · induction ls1 with
    | nil => simp [sseLines, h]
    | cons l1 ls1' ih =>
      cases he : sseExtract l1 with
      | none => simpa [sseLines, he] using ih
      | some d =>
        by_cases hd : d = "[DONE]".data
        · simp [sseLines, he, hd]
        · cases hp : parse d with
          | none => simpa [sseLines, he, hd, hp] using ih
          | some c =>
            by_cases hc : c = []
            · simpa [sseLines, he, hd, hp, hc] using ih
            · simpa [sseLines, he, hd, hp, hc] using ih
  · intro p c
    have h1 : sseStep p ([], []) doneChunkCE = ([], []) := rfl
    simp [streamOpenAIDeltas, h1]

/-- C2 amended witness at concrete inputs. -/
theorem sse_done_stops_chunk_witness :
    sseExtract "data: [DONE]".data = some "[DONE]".data
    ∧ sseLines parseCE (["data: ".data ++ hiPayloadCE] ++ "data: [DONE]".data :: [hiChunkCE])
        = sseLines parseCE ["data: ".data ++ hiPayloadCE] :=
  ⟨by rfl,
    (sse_done_stops_chunk parseCE ["data: ".data ++ hiPayloadCE] [hiChunkCE]
      "data: [DONE]".data (by rfl)).1⟩

/-- C4: a stream that completes while the accumulated text is still empty
fails with the `emptyResponse` condition (for both adapters), while a
non-2xx status or network error fails immediately with a transport
condition carrying the upstream information available to the adapter
(`errorBody.error` for the Ollama endpoint, status plus body text for the
OpenAI-style endpoints), and the conditions are pairwise distinct. -/
theorem adapter_empty_vs_transport
    (parseO parseS : List Char → Option (List Char))
    (chunksO chunksS : List (List Char)) (status : Nat) (body e m : List Char)
    (h1 : (streamOllamaDeltas parseO chunksO).flatten = [])
    (h2 : (streamOpenAIDeltas parseS chunksS).flatten = []) :
    streamOllamaRun parseO (.ok chunksO)
      = .error (.emptyResponse, "Ollama Stream Error: Empty response from Ollama.".data)
    ∧ streamOpenAIRun parseS true (.ok chunksS)
      = .error (.emptyResponse, "Stream Error: Empty response from provider.".data)
    ∧ streamOllamaRun parseO (.httpErr (some e))
      = .error (.transportHttp, "Ollama Stream Error: ".data ++ e)
    ∧ streamOpenAIRun parseS true (.httpErr status body)
      = .error (.transportHttp,
          "Stream Error: API Error (".data ++ natDigits status ++ "): ".data ++ body)
    ∧ streamOllamaRun parseO (.netErr m)
      = .error (.transportNet, "Ollama Stream Error: ".data ++ m)
    ∧ AdapterFailKind.emptyResponse ≠ .transportHttp
    ∧ AdapterFailKind.emptyResponse ≠ .transportNet := by
  refine ⟨?_, ?_, rfl, rfl, rfl, by decide, by decide⟩
  · simp [streamOllamaRun, h1]
  · simp [streamOpenAIRun, h2]

/-- C4 witness: a body that ends without yielding content (a single
heartbeat line `{}`) triggers the empty-response failure. -/
theorem adapter_empty_vs_transport_witness :
    (streamOllamaDeltas (fun _ => none) [['{', '}', '\n']]).flatten = []
    ∧ streamOllamaRun (fun _ => none) (.ok [['{', '}', '\n']])
        = .error (.emptyResponse,
            "Ollama Stream Error: Empty response from Ollama.".data) :=
  ⟨by rfl,
    (adapter_empty_vs_transport (fun _ => none) (fun _ => none)
      [['{', '}', '\n']] [] 404 "not found".data "e".data "m".data
      (by rfl) (by rfl)).1⟩

/-- C5: while a session is active (`isGenerating`), a non-empty submission
is rejected with the busy toast and nothing else changes — the prompt is
not queued anywhere, the input is not cleared, and the in-flight session's
blocks, content and history are untouched; the second guard inside
`generateResponse` (line 502) likewise returns the state unchanged, so at
most one session generates at a time. -/
theorem busy_submission_rejected (proceed : AppState → List Char → AppState)
    (st : AppState) (h1 : st.isGenerating = true)
    (h2 : trimS st.cmdInputValue ≠ []) :
    processCommandInput proceed st
      = { st with toasts := st.toasts
          ++ [("Please wait for the current response to finish.".data, "info".data)] }
    ∧ ∀ render prompt outcome, generateResponseRun render prompt outcome st = st := by
  constructor
  · simp [processCommandInput, h2, h1]
  · intro render prompt outcome
    simp [generateResponseRun, h1]

/-- C5 witness at a concrete busy state. -/
theorem busy_submission_rejected_witness :
    trimS busyStateCE.cmdInputValue ≠ []
    ∧ processCommandInput (fun s _ => s) busyStateCE
        = { busyStateCE with toasts := busyStateCE.toasts
            ++ [("Please wait for the current response to finish.".data, "info".data)] } :=
  ⟨by decide,
    (busy_submission_rejected (fun s _ => s) busyStateCE rfl (by decide)).1⟩

/-- C3 (bug exhibit): on an adapter error ("boom") before any delta, the
catch block appends the error banner to the response block (the banner
appears in the block's content trace) and raises the toast, and the session
returns to idle — but the unconditional final render in the `finally` block
(line 557) then assigns `render fullResponseText true`, a render of text
that never contains the error, so the error text is absent from the block's
final content. -/
theorem generateResponse_error_wiped :
    (generateResponseRun renderCE "p".data (.err [] "boom".data)
        idleStateCE).isGenerating = false
    ∧ (generateResponseRun renderCE "p".data (.err [] "boom".data)
        idleStateCE).sessionContent = []
    ∧ containsSub "boom".data
        (generateResponseRun renderCE "p".data (.err [] "boom".data)
          idleStateCE).sessionContent = false
    ∧ (generateResponseRun renderCE "p".data (.err [] "boom".data)
        idleStateCE).contentTrace = [[], errBanner "boom".data, []]
    ∧ (generateResponseRun renderCE "p".data (.err [] "boom".data)
        idleStateCE).toasts = [("Generation Error: boom".data, "error".data)] := by
  refine ⟨rfl, rfl, rfl, rfl, ?_⟩
  decide

/-- C6: the renderer's output is a function of the buffer and the
final-mode flag alone — it never depends on what the element held before
(the code assigns the element's content from scratch on every invocation),
so re-rendering the same buffer in non-final mode twice gives the same
visual output, repeated final-mode renders give the same visual output (no
duplicated toolbars or double registration), and a final-mode render is
exactly the diagram/code affordance pass applied to the non-final render of
the same buffer. -/
theorem renderRichContent_idempotent
    (marked : Option (List Char → List Char))
    (katex : Option (List Char → Bool → List Char))
    (finalize : List Char → List Char) (prev prev' text : List Char) :
    renderRichContent marked katex finalize prev text false
      = renderRichContent marked katex finalize prev' text false
    ∧ renderRichContent marked katex finalize prev text true
      = renderRichContent marked katex finalize prev' text true
    ∧ ∀ (m : List Char → List Char),
        renderRichContent (some m) katex finalize prev text true
          = finalize (renderRichContent (some m) katex finalize prev' text false) :=
  ⟨rfl, rfl, fun _ => rfl⟩

lemma takeWhile_app_all (p : Char → Bool) (l1 l2 : List Char)
    (h : ∀ x ∈ l1, p x = true) :
    (l1 ++ l2).takeWhile p = l1 ++ l2.takeWhile p := by
  induction l1 with
  | nil => simp
  | cons c cs ih =>
    have hc : p c = true := h c (List.mem_cons_self c cs)
    simp [List.takeWhile_cons, hc,
      ih (fun x hx => h x (List.mem_cons_of_mem c hx))]

lemma dropWhile_app_all (p : Char → Bool) (l1 l2 : List Char)
    (h : ∀ x ∈ l1, p x = true) :
    (l1 ++ l2).dropWhile p = l2.dropWhile p := by
  induction l1 with
  | nil => simp
  | cons c cs ih =>
    have hc : p c = true := h c (List.mem_cons_self c cs)
    simp [List.dropWhile_cons, hc,
      ih (fun x hx => h x (List.mem_cons_of_mem c hx))]

lemma extractDisplayGo_congr :
    ∀ f1 f2 (s : List Char) (n : Nat), s.length ≤ f1 → s.length ≤ f2 →
      extractDisplayGo f1 s n = extractDisplayGo f2 s n := by
  intro f1
  induction f1 with
  | zero =>
    intro f2 s n h1 _
    have hs : s = [] := List.length_eq_zero.1 (Nat.le_zero.1 h1)
    subst hs
    cases f2 <;> rfl
  | succ g ih =>
    intro f2 s n h1 h2
    cases s with
    | nil => cases f2 <;> rfl
    | cons c s' =>
      cases s' with
      | nil => cases f2 <;> rfl
      | cons d rest =>
        simp only [List.length_cons] at h1 h2
        obtain ⟨g2, rfl⟩ : ∃ g2, f2 = g2 + 1 := ⟨f2 - 1, by omega⟩
        simp only [extractDisplayGo]
        by_cases hcd : c = '$' ∧ d = '$'
        · simp only [if_pos hcd]
          cases hfc : findClose rest with
          | none => rfl
          | some i =>
            have hd := List.length_drop (i + 2) rest
            have h3 := ih g2 (rest.drop (i + 2)) (n + 1) (by omega) (by omega)
            simp [h3]
        · simp only [if_neg hcd]
          rw [ih g2 (d :: rest) n (by simp; omega) (by simp; omega)]

lemma extractDisplay_nomatch (c d : Char) (rest : List Char) (n : Nat)
    (h : ¬(c = '$' ∧ d = '$')) :
    extractDisplay (c :: d :: rest) n
      = (c :: (extractDisplay (d :: rest) n).1,
          (extractDisplay (d :: rest) n).2) := by
  show extractDisplayGo (rest.length + 1 + 1) (c :: d :: rest) n = _
  simp only [extractDisplayGo, if_neg h]
  rfl

lemma extractDisplay_open_close (rest : List Char) (n i : Nat)
    (h : findClose rest = some i) :
    extractDisplay ('$' :: '$' :: rest) n
      = (phStr n ++ (extractDisplay (rest.drop (i + 2)) (n + 1)).1,
          rest.take i :: (extractDisplay (rest.drop (i + 2)) (n + 1)).2) := by
  show extractDisplayGo (rest.length + 1 + 1) ('$' :: '$' :: rest) n = _
  have hd := List.length_drop (i + 2) rest
  have h3 := extractDisplayGo_congr (rest.length + 1) (rest.drop (i + 2)).length
    (rest.drop (i + 2)) (n + 1) (by omega) le_rfl
  simp only [extractDisplayGo, h, h3]
  simp [extractDisplay]

lemma extractDisplay_open_noclose (rest : List Char) (n : Nat)
    (h : findClose rest = none) :
    extractDisplay ('$' :: '$' :: rest) n = ('$' :: '$' :: rest, []) := by
  show extractDisplayGo (rest.length + 1 + 1) ('$' :: '$' :: rest) n = _
  simp only [extractDisplayGo, h]
  simp

lemma extractInlineGo_congr :
    ∀ f1 f2 (s : List Char) (n : Nat), s.length ≤ f1 → s.length ≤ f2 →
      extractInlineGo f1 s n = extractInlineGo f2 s n := by
  intro f1
  induction f1 with
  | zero =>
    intro f2 s n h1 _
    have hs : s = [] := List.length_eq_zero.1 (Nat.le_zero.1 h1)
    subst hs
    cases f2 <;> rfl
  | succ g ih =>
    intro f2 s n h1 h2
    cases s with
    | nil => cases f2 <;> rfl
    | cons c rest =>
      simp only [List.length_cons] at h1 h2
      obtain ⟨g2, rfl⟩ : ∃ g2, f2 = g2 + 1 := ⟨f2 - 1, by omega⟩
      simp only [extractInlineGo]
      by_cases hc : c = '$'
      · simp only [if_pos hc]
        cases hfc : scanClose rest with
        | none => rw [ih g2 rest n (by omega) (by omega)]
        | some i =>
          have hd := List.length_drop (i + 1) rest
          have h3 := ih g2 rest n (by omega) (by omega)
          have h4 := ih g2 (rest.drop (i + 1)) (n + 1) (by omega) (by omega)
          by_cases hi : i = 0 <;> simp [hi, h3, h4]
      · simp only [if_neg hc]
        rw [ih g2 rest n (by omega) (by omega)]

lemma extractInline_other (c : Char) (rest : List Char) (n : Nat)
    (h : c ≠ '$') :
    extractInline (c :: rest) n
      = (c :: (extractInline rest n).1, (extractInline rest n).2) := by
  show extractInlineGo (rest.length + 1) (c :: rest) n = _
  simp only [extractInlineGo, if_neg h]
  rfl

lemma extractInline_open (rest : List Char) (n i : Nat)
    (h : scanClose rest = some i) (hi : i ≠ 0) :
    extractInline ('$' :: rest) n
      = (phStr n ++ (extractInline (rest.drop (i + 1)) (n + 1)).1,
          rest.take i :: (extractInline (rest.drop (i + 1)) (n + 1)).2) := by
  show extractInlineGo (rest.length + 1) ('$' :: rest) n = _
  have hd := List.length_drop (i + 1) rest
  have h3 := extractInlineGo_congr (rest.length) (rest.drop (i + 1)).length
    (rest.drop (i + 1)) (n + 1) (by omega) le_rfl
  simp only [extractInlineGo, h, h3]
  simp [extractInline, hi]

lemma restoreGo_congr (katex : List Char → Bool → List Char)
    (blocks : List (List Char × Bool)) :
    ∀ f1 f2 (s : List Char), s.length ≤ f1 → s.length ≤ f2 →
      restoreGo katex blocks f1 s = restoreGo katex blocks f2 s := by
  intro f1
  induction f1 with
  | zero =>
    intro f2 s h1 _
    have hs : s = [] := List.length_eq_zero.1 (Nat.le_zero.1 h1)
    subst hs
    cases f2 <;> rfl
  | succ g ih =>
    intro f2 s h1 h2
    cases s with
    | nil => cases f2 <;> rfl
    | cons c rest =>
      simp only [List.length_cons] at h1 h2
      obtain ⟨g2, rfl⟩ : ∃ g2, f2 = g2 + 1 := ⟨f2 - 1, by omega⟩
      simp only [restoreGo]
      cases hm : matchPhAt c rest with
      | none => rw [ih g2 rest (by omega) (by omega)]
      | some t =>
        obtain ⟨n, mtxt, k⟩ := t
        have hd := List.length_drop k rest
        have h3 := ih g2 (rest.drop k) (by omega) (by omega)
        simp [h3]

lemma restoreMath_cons_none (katex : List Char → Bool → List Char)
    (blocks : List (List Char × Bool)) (c : Char) (rest : List Char)
    (h : matchPhAt c rest = none) :
    restoreMath katex blocks (c :: rest)
      = c :: restoreMath katex blocks rest := by
  show restoreGo katex blocks (rest.length + 1) (c :: rest) = _
  simp only [restoreGo, h]
  rfl

lemma restoreMath_cons_some (katex : List Char → Bool → List Char)
    (blocks : List (List Char × Bool)) (c : Char) (rest mtxt : List Char)
    (n k : Nat) (h : matchPhAt c rest = some (n, mtxt, k)) :
    restoreMath katex blocks (c :: rest)
      = (match blocks[n]? with
         | some b => katex b.1 b.2
         | none => mtxt) ++ restoreMath katex blocks (rest.drop k) := by
  show restoreGo katex blocks (rest.length + 1) (c :: rest) = _
  have hd := List.length_drop k rest
  have h3 := restoreGo_congr katex blocks rest.length (rest.drop k).length
    (rest.drop k) (by omega) le_rfl
  simp only [restoreGo, h, h3]
  simp [restoreMath]

lemma fixNumberedGo_congr :
    ∀ f1 f2 (s : List Char), s.length ≤ f1 → s.length ≤ f2 →
      fixNumberedGo f1 s = fixNumberedGo f2 s := by
  intro f1
  induction f1 with
  | zero =>
    intro f2 s h1 _
    have hs : s = [] := List.length_eq_zero.1 (Nat.le_zero.1 h1)
    subst hs
    cases f2 <;> rfl
  | succ g ih =>
    intro f2 s h1 h2
    cases s with
    | nil => cases f2 <;> rfl
    | cons c rest =>
      simp only [List.length_cons] at h1 h2
      obtain ⟨g2, rfl⟩ : ∃ g2, f2 = g2 + 1 := ⟨f2 - 1, by omega⟩
      simp only [fixNumberedGo]
      cases hm : matchNumAt c rest with
      | none => rw [ih g2 rest (by omega) (by omega)]
      | some t =>
        obtain ⟨rep, k⟩ := t
        have hd := List.length_drop k rest
        have h3 := ih g2 (rest.drop k) (by omega) (by omega)
        simp [h3]

lemma fixNumbered_cons_none (c : Char) (rest : List Char)
    (h : matchNumAt c rest = none) :
    fixNumbered (c :: rest) = c :: fixNumbered rest := by
  show fixNumberedGo (rest.length + 1) (c :: rest) = _
  simp only [fixNumberedGo, h]
  rfl

lemma fixNumbered_cons_some (c : Char) (rest rep : List Char) (k : Nat)
    (h : matchNumAt c rest = some (rep, k)) :
    fixNumbered (c :: rest) = rep ++ fixNumbered (rest.drop k) := by
  show fixNumberedGo (rest.length + 1) (c :: rest) = _
  have hd := List.length_drop k rest
  have h3 := fixNumberedGo_congr rest.length (rest.drop k).length (rest.drop k)
    (by omega) le_rfl
  simp only [fixNumberedGo, h, h3]
  simp [fixNumbered]

lemma fixBulletsGo_congr :
    ∀ f1 f2 (s : List Char), s.length ≤ f1 → s.length ≤ f2 →
      fixBulletsGo f1 s = fixBulletsGo f2 s := by
  intro f1
  induction f1 with
  | zero =>
    intro f2 s h1 _
    have hs : s = [] := List.length_eq_zero.1 (Nat.le_zero.1 h1)
    subst hs
    cases f2 <;> rfl
  | succ g ih =>
    intro f2 s h1 h2
    cases s with
    | nil => cases f2 <;> rfl
    | cons c rest =>
      simp only [List.length_cons] at h1 h2
      obtain ⟨g2, rfl⟩ : ∃ g2, f2 = g2 + 1 := ⟨f2 - 1, by omega⟩
      simp only [fixBulletsGo]
      cases hm : matchBulAt c rest with
      | none => rw [ih g2 rest (by omega) (by omega)]
      | some t =>
        obtain ⟨rep, k⟩ := t
        have hd := List.length_drop k rest
        have h3 := ih g2 (rest.drop k) (by omega) (by omega)
        simp [h3]

lemma fixBullets_cons_none (c : Char) (rest : List Char)
    (h : matchBulAt c rest = none) :
    fixBullets (c :: rest) = c :: fixBullets rest := by
  show fixBulletsGo (rest.length + 1) (c :: rest) = _
  simp only [fixBulletsGo, h]
  rfl

lemma fixBullets_cons_some (c : Char) (rest rep : List Char) (k : Nat)
    (h : matchBulAt c rest = some (rep, k)) :
    fixBullets (c :: rest) = rep ++ fixBullets (rest.drop k) := by
  show fixBulletsGo (rest.length + 1) (c :: rest) = _
  have hd := List.length_drop k rest
  have h3 := fixBulletsGo_congr rest.length (rest.drop k).length (rest.drop k)
    (by omega) le_rfl
  simp only [fixBulletsGo, h, h3]
  simp [fixBullets]

lemma digitChar_isDigit (m : Nat) : (digitChar m).isDigit = true := by
  unfold digitChar
  split_ifs <;> decide

lemma natDigitsGo_isDigit :
    ∀ f n c, c ∈ natDigitsGo f n → c.isDigit = true := by
  intro f
  induction f with
  | zero =>
    intro n c hc
    simp only [natDigitsGo, List.mem_singleton] at hc
    subst hc
    exact digitChar_isDigit n
  | succ g ih =>
    intro n c hc
    simp only [natDigitsGo] at hc
    by_cases hn : n < 10
    · rw [if_pos hn] at hc
      simp only [List.mem_singleton] at hc
      subst hc
      exact digitChar_isDigit n
    · rw [if_neg hn] at hc
      simp only [List.mem_append, List.mem_singleton] at hc
      rcases hc with hc | hc
      · exact ih _ _ hc
      · subst hc
        exact digitChar_isDigit _

lemma natDigits_isDigit (n : Nat) : ∀ c ∈ natDigits n, c.isDigit = true :=
  fun c hc => natDigitsGo_isDigit n n c hc

lemma isDigit_not_ws (c : Char) (h : c.isDigit = true) : isWsC c = false := by
  have h1 : c ≠ ' ' := fun he => by subst he; exact absurd h (by decide)
  have h2 : c ≠ '\t' := fun he => by subst he; exact absurd h (by decide)
  have h3 : c ≠ '\n' := fun he => by subst he; exact absurd h (by decide)
  have h4 : c ≠ '\r' := fun he => by subst he; exact absurd h (by decide)
  have h5 : c ≠ '\x0b' := fun he => by subst he; exact absurd h (by decide)
  have h6 : c ≠ '\x0c' := fun he => by subst he; exact absurd h (by decide)
  simp [isWsC, h1, h2, h3, h4, h5, h6]

lemma phStr_no_dollar (n : Nat) : '$' ∉ phStr n := by
  intro hm
  simp only [phStr, List.mem_append] at hm
  rcases hm with (hm | hm) | hm
  · revert hm; decide
  · exact absurd (natDigits_isDigit n '$' hm) (by decide)
  · revert hm; decide

lemma findClose_at (tex r : List Char) (htex : '$' ∉ tex) :
    findClose (tex ++ '$' :: '$' :: r) = some tex.length := by
  revert htex
  induction tex with
  | nil => intro _; simp [findClose]
  | cons t ts ih =>
    intro htex
    have ht : t ≠ '$' := fun he => htex (he ▸ List.mem_cons_self t ts)
    have hts : '$' ∉ ts := fun hm => htex (List.mem_cons_of_mem t hm)
    have ih2 := ih hts
    cases ts with
    | nil => simp [findClose, ht]
    | cons t2 ts2 =>
      simp only [List.cons_append] at ih2 ⊢
      simp [findClose, ht, ih2]

lemma take_len_append (l1 l2 : List Char) : (l1 ++ l2).take l1.length = l1 := by
  induction l1 with
  | nil => simp
  | cons c cs ih => simp [ih]

lemma drop_len_append (l1 l2 : List Char) : (l1 ++ l2).drop l1.length = l2 := by
  induction l1 with
  | nil => simp
  | cons c cs ih => simp [ih]

lemma drop_len2_append (tex post : List Char) :
    (tex ++ '$' :: '$' :: post).drop (tex.length + 2) = post := by
  have h1 : tex ++ '$' :: '$' :: post = (tex ++ ['$', '$']) ++ post := by simp
  have h2 : (tex ++ ['$', '$']).length = tex.length + 2 := by simp
  rw [h1, ← h2, drop_len_append]

lemma extractDisplay_at_open (tex post : List Char) (n : Nat)
    (htex : '$' ∉ tex) :
    extractDisplay ('$' :: '$' :: (tex ++ '$' :: '$' :: post)) n
      = (phStr n ++ (extractDisplay post (n + 1)).1,
          tex :: (extractDisplay post (n + 1)).2) := by
  rw [extractDisplay_open_close (tex ++ '$' :: '$' :: post) n tex.length
    (findClose_at tex post htex)]
  rw [drop_len2_append, take_len_append]

/-- C8: extraction runs display-math first: a display region whose body and
preceding text are dollar-free is consumed whole by the display pass — the
two `$$` delimiters are replaced, together with the body, by the positional
placeholder, which itself contains no dollar character, so the subsequent
inline pass (which by construction runs on the display pass's output) can
never match those delimiters as two separate inline regions. -/
theorem display_math_extracted_first (pre tex post : List Char) (n : Nat)
    (hpre : '$' ∉ pre) (htex : '$' ∉ tex) :
    extractDisplay (pre ++ "$$".data ++ tex ++ "$$".data ++ post) n
      = (pre ++ phStr n ++ (extractDisplay post (n + 1)).1,
          tex :: (extractDisplay post (n + 1)).2)
    ∧ '$' ∉ phStr n
    ∧ ∀ s, extractMathBlocks s
        = ((extractInline (extractDisplay s 0).1 (extractDisplay s 0).2.length).1,
            (extractDisplay s 0).2.map (fun t => (t, true))
              ++ (extractInline (extractDisplay s 0).1
                    (extractDisplay s 0).2.length).2.map (fun t => (t, false))) := by
  refine ⟨?_, phStr_no_dollar n, fun s => rfl⟩
  have hassoc : pre ++ "$$".data ++ tex ++ "$$".data ++ post
      = pre ++ '$' :: '$' :: (tex ++ '$' :: '$' :: post) := by simp
  rw [hassoc]
  clear hassoc
  revert hpre
  induction pre with
  | nil => intro _; simpa using extractDisplay_at_open tex post n htex
  | cons c pre' ih =>
    intro hpre
    have hc : c ≠ '$' := fun he => hpre (he ▸ List.mem_cons_self c pre')
    have hpre' : '$' ∉ pre' := fun hm => hpre (List.mem_cons_of_mem c hm)
    obtain ⟨d, rest2, he⟩ : ∃ d rest2,
        pre' ++ '$' :: '$' :: (tex ++ '$' :: '$' :: post) = d :: rest2 := by
      cases pre' <;> exact ⟨_, _, rfl⟩
    have hnm : ¬(c = '$' ∧ d = '$') := fun hx => hc hx.1
    have step : extractDisplay (c :: (pre' ++ '$' :: '$' :: (tex ++ '$' :: '$' :: post))) n
        = (c :: (extractDisplay (pre' ++ '$' :: '$' :: (tex ++ '$' :: '$' :: post)) n).1,
            (extractDisplay (pre' ++ '$' :: '$' :: (tex ++ '$' :: '$' :: post)) n).2) := by
      rw [he]
      exact extractDisplay_nomatch c d rest2 n hnm
    simp [List.cons_append, List.append_assoc, step, ih hpre']

/-- C8 witness at concrete inputs. -/
theorem display_math_extracted_first_witness :
    '$' ∉ "a ".data
    ∧ extractDisplay ("a ".data ++ "$$".data ++ "x".data ++ "$$".data ++ "b".data) 0
        = ("a ".data ++ phStr 0 ++ (extractDisplay "b".data 1).1,
            "x".data :: (extractDisplay "b".data 1).2) :=
  ⟨by decide,
    (display_math_extracted_first "a ".data "x".data "b".data 0
      (by decide) (by decide)).1⟩

lemma scanClose_at (tex r : List Char)
    (h : ∀ c ∈ tex, c ≠ '$' ∧ c ≠ '\n') :
    scanClose (tex ++ '$' :: r) = some tex.length := by
  revert h
  induction tex with
  | nil => intro _; simp [scanClose]
  | cons t ts ih =>
    intro h
    obtain ⟨ht1, ht2⟩ := h t (List.mem_cons_self t ts)
    have ih2 := ih (fun c hc => h c (List.mem_cons_of_mem t hc))
    simp [scanClose, ht1, ht2, ih2]

lemma scanClose_newline (t2 r2 : List Char) (h3 : '\n' ∈ t2)
    (h4 : '$' ∉ t2) : scanClose (t2 ++ r2) = none := by
  revert h3 h4
  induction t2 with
  | nil => intro h3 _; exact absurd h3 (List.not_mem_nil '\n')
  | cons c ts ih =>
    intro h3 h4
    have hcd : c ≠ '$' := fun he => h4 (he ▸ List.mem_cons_self c ts)
    have h4' : '$' ∉ ts := fun hm => h4 (List.mem_cons_of_mem c hm)
    by_cases hcn : c = '\n'
    · simp [scanClose, hcd, hcn]
    · have h3' : '\n' ∈ ts := by
        rcases List.mem_cons.1 h3 with he | hm
        · exact absurd he.symm hcn
        · exact hm
      simp [scanClose, hcd, hcn, ih h3' h4']

lemma drop_len1_append (tex rest : List Char) :
    (tex ++ '$' :: rest).drop (tex.length + 1) = rest := by
  have h1 : tex ++ '$' :: rest = (tex ++ ['$']) ++ rest := by simp
  have h2 : (tex ++ ['$']).length = tex.length + 1 := by simp
  rw [h1, ← h2, drop_len_append]

/-- C9 counterexample: the claim says a single-dollar span whose content
crosses one non-blank line break is still extracted as inline math; on the
buffer `x $a\nb$ y` the regex `/\$([^\$\n]+?)\$/` forbids every newline in
the body, so nothing is extracted at all (and no display region exists). -/
theorem inline_newline_not_extracted_ce :
    extractMathBlocks "x $a\nb$ y".data = ("x $a\nb$ y".data, []) := by rfl

/-- C9 (amended): the inline pass recognizes a non-greedy single-dollar
span exactly when its non-empty body contains no `$` and no newline of any
kind — a span crossing any line break (blank or not) is not matched, the
body scan failing at the first newline — while a display-math body (second
pass of the conjunction) may span multiple lines. -/
theorem inline_single_line_only (tex rest t2 r2 : List Char) (n : Nat)
    (h1 : tex ≠ []) (h2 : ∀ c ∈ tex, c ≠ '$' ∧ c ≠ '\n')
    (h3 : '\n' ∈ t2) (h4 : '$' ∉ t2) :
    extractInline ('$' :: (tex ++ '$' :: rest)) n
      = (phStr n ++ (extractInline rest (n + 1)).1,
          tex :: (extractInline rest (n + 1)).2)
    ∧ scanClose (t2 ++ r2) = none
    ∧ ∀ (dtex dpost : List Char) (m : Nat), '$' ∉ dtex →
        extractDisplay ('$' :: '$' :: (dtex ++ '$' :: '$' :: dpost)) m
          = (phStr m ++ (extractDisplay dpost (m + 1)).1,
              dtex :: (extractDisplay dpost (m + 1)).2) := by
  refine ⟨?_, scanClose_newline t2 r2 h3 h4,
    fun dtex dpost m hd => extractDisplay_at_open dtex dpost m hd⟩
  have hi : tex.length ≠ 0 := fun he => h1 (List.length_eq_zero.1 he)
  rw [extractInline_open (tex ++ '$' :: rest) n tex.length
    (scanClose_at tex rest h2) hi]
  rw [drop_len1_append, take_len_append]

/-- C9 witness at concrete inputs. -/
theorem inline_single_line_only_witness :
    ('\n' ∈ ['a', '\n', 'b'] ∧ (∀ c ∈ ['a', 'b'], c ≠ '$' ∧ c ≠ '\n'))
    ∧ extractInline ('$' :: (['a', 'b'] ++ '$' :: "r".data)) 0
        = (phStr 0 ++ (extractInline "r".data 1).1,
            ['a', 'b'] :: (extractInline "r".data 1).2) :=
  ⟨⟨by decide, by decide⟩,
    (inline_single_line_only ['a', 'b'] "r".data ['a', '\n', 'b'] "q".data 0
      (by decide) (by decide) (by decide) (by decide)).1⟩

lemma matchNumAt_at (c : Char) (ws ds : List Char) (w : Char)
    (rest : List Char) (hc : c ≠ '\n') (hws : ws ≠ [])
    (hwsAll : ∀ x ∈ ws, isWsC x = true) (hds : ds ≠ [])
    (hdsAll : ∀ x ∈ ds, x.isDigit = true) (hw : isWsC w = true) :
    matchNumAt c (ws ++ ds ++ '.' :: w :: rest)
      = some (c :: '\n' :: '\n' :: (ds ++ '.' :: ' ' :: []),
          ws.length + ds.length + 2) := by
  obtain ⟨d, ds', rfl⟩ : ∃ d ds', ds = d :: ds' := by
    cases ds with
    | nil => exact absurd rfl hds
    | cons d ds' => exact ⟨d, ds', rfl⟩
  have hd : Char.isDigit d = true := hdsAll d (List.mem_cons_self d ds')
  have hdnw : isWsC d = false := isDigit_not_ws d hd
  have hdot : Char.isDigit '.' = false := by decide
  have e1 : (ws ++ (d :: ds') ++ '.' :: w :: rest).takeWhile isWsC = ws := by
    rw [List.append_assoc, takeWhile_app_all _ _ _ hwsAll]
    simp [List.takeWhile_cons, hdnw]
  have e2 : (ws ++ (d :: ds') ++ '.' :: w :: rest).dropWhile isWsC
      = (d :: ds') ++ '.' :: w :: rest := by
    rw [List.append_assoc, dropWhile_app_all _ _ _ hwsAll]
    simp [List.dropWhile_cons, hdnw]
  have e3 : ((d :: ds') ++ '.' :: w :: rest).takeWhile Char.isDigit
      = d :: ds' := by
    rw [takeWhile_app_all _ _ _ hdsAll]
    simp [List.takeWhile_cons, hdot]
  have e4 : ((d :: ds') ++ '.' :: w :: rest).dropWhile Char.isDigit
      = '.' :: w :: rest := by
    rw [dropWhile_app_all _ _ _ hdsAll]
    simp [List.dropWhile_cons, hdot]
  simp only [matchNumAt, if_neg hc]
  rw [e1, e2, e3, e4, if_neg hws]
  simp [hw]

lemma matchBulAt_at (c : Char) (ws : List Char) (b w : Char)
    (rest : List Char) (hc : c ≠ '\n') (hws : ws ≠ [])
    (hwsAll : ∀ x ∈ ws, isWsC x = true) (hb : b = '-' ∨ b = '*')
    (hw : isWsC w = true) :
    matchBulAt c (ws ++ b :: w :: rest)
      = some (c :: '\n' :: '\n' :: b :: ' ' :: [], ws.length + 2) := by
  have hbnw : isWsC b = false := by
    rcases hb with rfl | rfl <;> decide
  have e1 : (ws ++ b :: w :: rest).takeWhile isWsC = ws := by
    rw [takeWhile_app_all _ _ _ hwsAll]
    simp [List.takeWhile_cons, hbnw]
  have e2 : (ws ++ b :: w :: rest).dropWhile isWsC = b :: w :: rest := by
    rw [dropWhile_app_all _ _ _ hwsAll]
    simp [List.dropWhile_cons, hbnw]
  simp only [matchBulAt, if_neg hc]
  rw [e1, e2, if_neg hws]
  rcases hb with rfl | rfl <;> simp [hw]

lemma drop_marker_num (ws ds : List Char) (w : Char) (rest : List Char) :
    (ws ++ ds ++ '.' :: w :: rest).drop (ws.length + ds.length + 2) = rest := by
  have h1 : ws ++ ds ++ '.' :: w :: rest = (ws ++ ds ++ ['.', w]) ++ rest := by
    simp
  have h2 : (ws ++ ds ++ ['.', w]).length = ws.length + ds.length + 2 := by
    simp only [List.length_append, List.length_cons, List.length_nil]
  rw [h1, ← h2, drop_len_append]

lemma drop_marker_bul (ws : List Char) (b w : Char) (rest : List Char) :
    (ws ++ b :: w :: rest).drop (ws.length + 2) = rest := by
  have h1 : ws ++ b :: w :: rest = (ws ++ [b, w]) ++ rest := by simp
  have h2 : (ws ++ [b, w]).length = ws.length + 2 := by
    simp only [List.length_append, List.length_cons, List.length_nil]
  rw [h1, ← h2, drop_len_append]

lemma fixNumbered_id (s : List Char) (h : hasNumMatch s = false) :
    fixNumbered s = s := by
  induction s with
  | nil => rfl
  | cons c rest ih =>
    simp only [hasNumMatch, Bool.or_eq_false_iff] at h
    obtain ⟨h1, h2⟩ := h
    cases hm : matchNumAt c rest with
    | some t => rw [hm] at h1; simp at h1
    | none => rw [fixNumbered_cons_none c rest hm, ih h2]

lemma fixBullets_id (s : List Char) (h : hasBulMatch s = false) :
    fixBullets s = s := by
  induction s with
  | nil => rfl
  | cons c rest ih =>
    simp only [hasBulMatch, Bool.or_eq_false_iff] at h
    obtain ⟨h1, h2⟩ := h
    cases hm : matchBulAt c rest with
    | some t => rw [hm] at h1; simp at h1
    | none => rw [fixBullets_cons_none c rest hm, ih h2]

/-- C10 counterexample: the claim says any digits-plus-dot following
whitespace after a non-newline character gets a blank line inserted; in
`a 1.x` the marker `1.` follows a space after `a`, yet the sanitizer leaves
the text unchanged because both regexes also require a whitespace character
after the marker. -/
theorem sanitize_marker_needs_trailing_ws_ce :
    "a 1.x".data = 'a' :: ' ' :: '1' :: '.' :: 'x' :: ([] : List Char)
    ∧ sanitizeMarkdown "a 1.x".data = "a 1.x".data := ⟨rfl, by rfl⟩

/-- C10 (amended): the renderer renders the `sanitizeMarkdown`-transformed
text, not the raw buffer; a numbered-list marker (digits then a dot) or
bullet marker (`-` or `*`) that follows whitespace after a non-newline
character AND is itself followed by a whitespace character has the
preceding whitespace replaced by a blank line (and the following whitespace
by a single space); a buffer matching neither pattern is left identical to
the raw buffer. -/
theorem sanitizeMarkdown_list_fix :
    (∀ (marked : List Char → List Char)
        (katexO : Option (List Char → Bool → List Char))
        (finalize : List Char → List Char) (prev text : List Char)
        (isFinal : Bool),
        renderRichContent (some marked) katexO finalize prev text isFinal
          = renderFromSanitized marked katexO finalize (sanitizeMarkdown text)
              isFinal)
    ∧ (∀ (c : Char) (ws ds : List Char) (w : Char) (rest : List Char),
        c ≠ '\n' → ws ≠ [] → (∀ x ∈ ws, isWsC x = true) → ds ≠ [] →
        (∀ x ∈ ds, x.isDigit = true) → isWsC w = true →
        fixNumbered (c :: (ws ++ ds ++ '.' :: w :: rest))
          = (c :: '\n' :: '\n' :: (ds ++ '.' :: ' ' :: []))
              ++ fixNumbered rest)
    ∧ (∀ (c : Char) (ws : List Char) (b w : Char) (rest : List Char),
        c ≠ '\n' → ws ≠ [] → (∀ x ∈ ws, isWsC x = true) →
        (b = '-' ∨ b = '*') → isWsC w = true →
        fixBullets (c :: (ws ++ b :: w :: rest))
          = (c :: '\n' :: '\n' :: b :: ' ' :: []) ++ fixBullets rest)
    ∧ (∀ s, hasNumMatch s = false → hasBulMatch s = false →
        sanitizeMarkdown s = s) := by
  refine ⟨fun _ _ _ _ _ _ => rfl, ?_, ?_, ?_⟩
  · intro c ws ds w rest hc hws hwsAll hds hdsAll hw
    rw [fixNumbered_cons_some c _ _ _
      (matchNumAt_at c ws ds w rest hc hws hwsAll hds hdsAll hw)]
    rw [drop_marker_num]
  · intro c ws b w rest hc hws hwsAll hb hw
    rw [fixBullets_cons_some c _ _ _
      (matchBulAt_at c ws b w rest hc hws hwsAll hb hw)]
    rw [drop_marker_bul]
  · intro s h1 h2
    unfold sanitizeMarkdown
    by_cases hs : s = []
    · simp [hs]
    · rw [if_neg hs, fixNumbered_id s h1, fixBullets_id s h2]

/-- C10 witness at concrete inputs. -/
theorem sanitizeMarkdown_list_fix_witness :
    fixNumbered ('a' :: ([' '] ++ ['1'] ++ '.' :: ' ' :: "b".data))
      = ('a' :: '\n' :: '\n' :: (['1'] ++ '.' :: ' ' :: []))
          ++ fixNumbered "b".data
    ∧ sanitizeMarkdown "plain text".data = "plain text".data :=
  ⟨sanitizeMarkdown_list_fix.2.1 'a' [' '] ['1'] ' ' "b".data
      (by decide) (by decide) (by decide) (by decide) (by decide) (by decide),
    sanitizeMarkdown_list_fix.2.2.2 "plain text".data (by rfl) (by rfl)⟩

lemma containsPh_no_pct (s : List Char) (h : ∀ c ∈ s, c ≠ '%') :
    containsPh s = false := by
  revert h
  induction s with
  | nil => intro _; rfl
  | cons c rest ih =>
    intro h
    have hc : c ≠ '%' := h c (List.mem_cons_self c rest)
    have hm : matchPhAt c rest = none := by simp [matchPhAt, hc]
    simp [containsPh, hm, ih (fun x hx => h x (List.mem_cons_of_mem c hx))]

lemma restore_skip (katex : List Char → Bool → List Char)
    (blocks : List (List Char × Bool)) (pre t : List Char)
    (h : ∀ c ∈ pre, c ≠ '%') :
    restoreMath katex blocks (pre ++ t) = pre ++ restoreMath katex blocks t := by
  revert h
  induction pre with
  | nil => intro _; simp
  | cons c cs ih =>
    intro h
    have hc : c ≠ '%' := h c (List.mem_cons_self c cs)
    have hm : matchPhAt c (cs ++ t) = none := by simp [matchPhAt, hc]
    rw [List.cons_append, restoreMath_cons_none katex blocks c (cs ++ t) hm,
      ih (fun x hx => h x (List.mem_cons_of_mem c hx))]
    rfl

lemma restore_all_skip (katex : List Char → Bool → List Char)
    (blocks : List (List Char × Bool)) (s : List Char)
    (h : ∀ c ∈ s, c ≠ '%') : restoreMath katex blocks s = s := by
  have h2 := restore_skip katex blocks s [] h
  have h3 : restoreMath katex blocks [] = [] := rfl
  simpa [h3] using h2

lemma matchPhAt_0 (t : List Char) :
    matchPhAt '%' ("%%MATH0%%%".data ++ t)
      = some (0, "%%%MATH0%%%".data, 10) := by
  simp [matchPhAt, List.isPrefixOf, natOfDigits, List.takeWhile, List.dropWhile]

lemma matchPhAt_1 (t : List Char) :
    matchPhAt '%' ("%%MATH1%%%".data ++ t)
      = some (1, "%%%MATH1%%%".data, 10) := by
  simp [matchPhAt, List.isPrefixOf, natOfDigits, List.takeWhile, List.dropWhile]

/-- C7: on the buffer `see $$x^2$$ and $y$ done`, a final-mode render (with
the markup formatter preserving text, the math engine never emitting a `%`,
and the affordance pass preserving placeholder-freeness) yields exactly the
surrounding prose with two distinct rendered math fragments at the
corresponding positions — `x^2` in display mode where the `$$…$$` region
stood, `y` in inline mode where the `$…$` region stood — and no literal
`%%%MATHn%%%` placeholder token remains in the output. -/
theorem math_roundtrip_example
    (marked : List Char → List Char) (katexF : List Char → Bool → List Char)
    (finalize : List Char → List Char) (prev : List Char)
    (hm : ∀ s, marked s = s)
    (hk : ∀ t m, '%' ∉ katexF t m)
    (hf : ∀ s, containsPh s = false → containsPh (finalize s) = false) :
    renderRichContent (some marked) (some katexF) finalize prev mathBufCE true
      = finalize ("see ".data ++ (katexF "x^2".data true ++ (" and ".data
          ++ (katexF "y".data false ++ " done".data))))
    ∧ containsPh (renderRichContent (some marked) (some katexF) finalize prev
        mathBufCE true) = false := by
  have B : List (List Char × Bool) := [("x^2".data, true), ("y".data, false)]
  have e1 : sanitizeMarkdown mathBufCE = mathBufCE := by rfl
  have e2 : extractMathBlocks mathBufCE
      = ("see %%%MATH0%%% and %%%MATH1%%% done".data,
          [("x^2".data, true), ("y".data, false)]) := by rfl
  have r3 : restoreMath katexF [("x^2".data, true), ("y".data, false)]
      (" done".data) = " done".data :=
    restore_all_skip _ _ _ (by decide)
  have r2 : restoreMath katexF [("x^2".data, true), ("y".data, false)]
      ("%%%MATH1%%%".data ++ " done".data)
      = katexF "y".data false ++ " done".data := by
    rw [show "%%%MATH1%%%".data ++ " done".data
        = '%' :: ("%%MATH1%%%".data ++ " done".data) from rfl]
    rw [restoreMath_cons_some katexF _ '%' ("%%MATH1%%%".data ++ " done".data)
      "%%%MATH1%%%".data 1 10 (matchPhAt_1 " done".data)]
    rw [show ("%%MATH1%%%".data ++ " done".data).drop 10 = " done".data from rfl]
    rw [r3]
    rfl
  have r1 : restoreMath katexF [("x^2".data, true), ("y".data, false)]
      (" and ".data ++ ("%%%MATH1%%%".data ++ " done".data))
      = " and ".data ++ (katexF "y".data false ++ " done".data) := by
    rw [restore_skip _ _ _ _ (by decide), r2]
  have r0 : restoreMath katexF [("x^2".data, true), ("y".data, false)]
      ("%%%MATH0%%%".data ++ (" and ".data ++ ("%%%MATH1%%%".data
        ++ " done".data)))
      = katexF "x^2".data true ++ (" and ".data
          ++ (katexF "y".data false ++ " done".data)) := by
    rw [show "%%%MATH0%%%".data ++ (" and ".data ++ ("%%%MATH1%%%".data
        ++ " done".data))
        = '%' :: ("%%MATH0%%%".data ++ (" and ".data ++ ("%%%MATH1%%%".data
          ++ " done".data))) from rfl]
    rw [restoreMath_cons_some katexF _ '%' ("%%MATH0%%%".data
      ++ (" and ".data ++ ("%%%MATH1%%%".data ++ " done".data)))
      "%%%MATH0%%%".data 0 10 (matchPhAt_0 _)]
    rw [show ("%%MATH0%%%".data ++ (" and ".data ++ ("%%%MATH1%%%".data
      ++ " done".data))).drop 10
      = " and ".data ++ ("%%%MATH1%%%".data ++ " done".data) from rfl]
    rw [r1]
    rfl
  have rmain : restoreMath katexF [("x^2".data, true), ("y".data, false)]
      ("see %%%MATH0%%% and %%%MATH1%%% done".data)
      = "see ".data ++ (katexF "x^2".data true ++ (" and ".data
          ++ (katexF "y".data false ++ " done".data))) := by
    rw [show "see %%%MATH0%%% and %%%MATH1%%% done".data
        = "see ".data ++ ("%%%MATH0%%%".data ++ (" and ".data
            ++ ("%%%MATH1%%%".data ++ " done".data))) from rfl]
    rw [restore_skip _ _ _ _ (by decide), r0]
  have hrender : renderRichContent (some marked) (some katexF) finalize prev
      mathBufCE true
      = finalize ("see ".data ++ (katexF "x^2".data true ++ (" and ".data
          ++ (katexF "y".data false ++ " done".data)))) := by
    show renderFromSanitized marked (some katexF) finalize
      (sanitizeMarkdown mathBufCE) true = _
    rw [e1]
    simp only [renderFromSanitized, e2]
    rw [hm]
    rw [rmain]
    simp
  refine ⟨hrender, ?_⟩
  rw [hrender]
  apply hf
  apply containsPh_no_pct
  intro c hc
  simp only [List.mem_append] at hc
  rcases hc with hc | hc | hc | hc | hc
  · intro he; subst he; revert hc; decide
  · exact fun he => hk "x^2".data true (he ▸ hc)
  · intro he; subst he; revert hc; decide
  · exact fun he => hk "y".data false (he ▸ hc)
  · intro he; subst he; revert hc; decide

/-- C7 witness with concrete collaborators (identity formatter, constant
math engine, identity affordance pass). -/
theorem math_roundtrip_example_witness :
    containsPh (renderRichContent (some (fun s => s))
      (some (fun _ _ => "K".data)) (fun s => s) [] mathBufCE true) = false :=
  (math_roundtrip_example (fun s => s) (fun _ _ => "K".data) (fun s => s) []
    (fun _ => rfl) (fun _ _ => by show '%' ∉ "K".data; decide)
    (fun _ h => h)).2

end GlyphOS
